import Mathlib

/-!
Verification of the PVR (Dreamcast video chip) emulation module
(`src/guest/pvr/pvr.c`): the VRAM 32-bit→64-bit-path address translator,
the scanline timing state machine, the framebuffer dirty-cookie logic,
the register file dispatch, and the video output size query.

Machine integers are modelled as `Nat`, with explicit `% 2^32` where a
uint32 may wrap. Bit operations mirror the C source exactly.
-/

namespace Pvr

/-! ### Definitions -/

/-- VRAM64 (pvr.c lines 25-30): converts a linear 32-bit-path vram address
to the interleaved 64-bit-path address. `~0x3` in uint32 is `0xFFFFFFFC`. -/
def VRAM64 (addr32 : Nat) : Nat :=
  let bank_size : Nat := 0x00400000
  let bank := addr32 &&& bank_size
  let offset := addr32 &&& (bank_size - 1)
  ((offset &&& 0xFFFFFFFC) <<< 1) ||| (bank >>> 20) ||| (offset &&& 0x3)

/-- Inverse mapping for `VRAM64`, recovering the bank bit and all offset
bits (including the two byte-within-word bits) from an interleaved address. -/
def vram64_inverse (x : Nat) : Nat :=
  x / 8 * 4 + x / 4 % 2 * 0x400000 + x % 4

/-- Little-endian 32-bit load from a byte memory at index `i`, modelling the
unaligned `*(uint32_t *)&pvr->vram[i]` loads of the C code. -/
def read32 (m : Nat → Nat) (i : Nat) : Nat :=
  m i % 256 + m (i + 1) % 256 * 256 + m (i + 2) % 256 * 65536 +
    m (i + 3) % 256 * 16777216

/-- Little-endian 32-bit store of `d` into a byte memory at index `i`. -/
def write32 (m : Nat → Nat) (i d : Nat) : Nat → Nat := fun j =>
  if j = i then d % 256
  else if j = i + 1 then d / 256 % 256
  else if j = i + 2 then d / 65536 % 256
  else if j = i + 3 then d / 16777216 % 256
  else m j

/-- Masked linear-path vram read (pvr.c lines 347-350). Modelled from the
spec: the `READ_DATA`/`WRITE_DATA` macros come from `guest/memory.h`, which
is not part of this module; per the spec a masked read returns the stored
word under the byte mask and a masked write merges the data under the mask. -/
def pvr_vram32_read (vram : Nat → Nat) (addr mask : Nat) : Nat :=
  read32 vram (VRAM64 addr) &&& mask

/-- Masked linear-path vram write (pvr.c lines 341-345); see
`pvr_vram32_read` for the mask semantics, which are modelled from the spec.
`~mask` in uint32 is `0xFFFFFFFF ^^^ mask`. -/
def pvr_vram32_write (vram : Nat → Nat) (addr data mask : Nat) : Nat → Nat :=
  let a := VRAM64 addr
  write32 vram a ((read32 vram a &&& (0xFFFFFFFF ^^^ mask)) ||| (data &&& mask))

/-- PVR_FB_COOKIE (pvr.c line 49): sentinel marking an untouched framebuffer. -/
def PVR_FB_COOKIE : Nat := 0xdeadbeef

/-- pvr_test_framebuffer (pvr.c lines 74-77): `true` means dirty (the 32-bit
word at the translated address no longer equals the cookie). -/
def pvr_test_framebuffer (vram : Nat → Nat) (addr : Nat) : Bool :=
  decide (read32 vram (VRAM64 addr) ≠ PVR_FB_COOKIE)

/-- line_width table (pvr.c line 90). -/
def line_width : List Nat := [320, 640]

/-- line_bpp table (pvr.c line 91). -/
def line_bpp : List Nat := [2, 3, 4]

/-- line_scale table (pvr.c line 92). -/
def line_scale : List Nat := [1, 2]

/-- pvr_mark_framebuffer (pvr.c lines 79-102): writes the cookie at the
framebuffer address and at the twelve plausible next-field line offsets,
skipping addresses in the texture-storage region (bit 24 set). `next_line`
additions wrap as uint32. -/
def pvr_mark_framebuffer (vram : Nat → Nat) (addr : Nat) : Nat → Nat :=
  if addr &&& 0x01000000 ≠ 0 then vram
  else
    let v0 := write32 vram (VRAM64 addr) PVR_FB_COOKIE
    line_width.foldl (fun v w =>
      line_bpp.foldl (fun v b =>
        line_scale.foldl (fun v s =>
          write32 v (VRAM64 ((addr + w * b * s) % 2 ^ 32)) PVR_FB_COOKIE) v) v) v0

/-- Registers read by the scanline state machine (`SPG_LOAD->vcount`,
`SPG_HBLANK_INT`, `SPG_VBLANK_INT`, `SPG_VBLANK`, `SPG_CONTROL->interlace`).
The bit-field layouts live in headers outside this module; fields are
modelled as plain naturals. -/
structure SpgRegs where
  vcount : Nat
  hblank_int_mode : Nat
  line_comp_val : Nat
  vblank_in_line_number : Nat
  vblank_out_line_number : Nat
  vbstart : Nat
  vbend : Nat
  interlace : Bool

/-- Mutable timing state: `pvr->current_line`, `SPG_STATUS->vsync`,
`SPG_STATUS->fieldnum`. -/
structure SpgState where
  current_line : Nat
  vsync : Bool
  fieldnum : Bool

/-- Outward notifications of one scanline tick: the three holly interrupts,
the fatal-configuration condition of the hblank switch default, and the
`pvr_vblank_in` / `pvr_vblank_out` calls. -/
structure SpgEvents where
  hblank_int : Bool
  hblank_fatal : Bool
  vblank_in_int : Bool
  vblank_out_int : Bool
  vblank_in : Bool
  vblank_out : Bool

/-- The vsync computation of pvr_next_scanline (pvr.c lines 264-270). -/
def spg_vsync (r : SpgRegs) (line : Nat) : Bool :=
  if r.vbstart < r.vbend then
    decide (r.vbstart ≤ line) && decide (line < r.vbend)
  else
    decide (r.vbstart ≤ line) || decide (line < r.vbend)

/-- pvr_next_scanline (pvr.c lines 230-282): one timer tick. Advances the
line counter, raises the timing interrupts, recomputes vsync and fires the
vblank-in/out notifications on its edges (vblank-in also flips the field).
The framebuffer work done inside `pvr_vblank_in` and the timer re-arming are
modelled separately / at the boundary. -/
def pvr_next_scanline (r : SpgRegs) (s : SpgState) : SpgState × SpgEvents :=
  let num_lines := r.vcount + 1
  let line := (s.current_line + 1) % num_lines
  let hblank_int :=
    if r.hblank_int_mode = 0 then decide (line = r.line_comp_val)
    else decide (r.hblank_int_mode = 2)
  let hblank_fatal := decide (r.hblank_int_mode ≠ 0 ∧ r.hblank_int_mode ≠ 2)
  let vblank_in_int := decide (line = r.vblank_in_line_number)
  let vblank_out_int := decide (line = r.vblank_out_line_number)
  let vsync := spg_vsync r line
  let vblank_in := !s.vsync && vsync
  let vblank_out := s.vsync && !vsync
  let fieldnum :=
    if vblank_in then (if r.interlace then !s.fieldnum else false)
    else s.fieldnum
  ({ current_line := line, vsync := vsync, fieldnum := fieldnum },
   { hblank_int := hblank_int, hblank_fatal := hblank_fatal,
     vblank_in_int := vblank_in_int, vblank_out_int := vblank_out_int,
     vblank_in := vblank_in, vblank_out := vblank_out })

/-- Iterated scanline ticks (state component only). -/
def spg_iter (r : SpgRegs) (s : SpgState) : Nat → SpgState
  | 0 => s
  | k + 1 => (pvr_next_scanline r (spg_iter r s k)).1

/-- Registers read by `pvr_framebuffer_size` and `pvr_video_size`
(`FB_R_SIZE`, `FB_R_CTRL->fb_depth`, `SPG_CONTROL->interlace`,
`SCALER_CTL`). -/
structure VideoRegs where
  fb_r_size_x : Nat
  fb_r_size_y : Nat
  fb_depth : Nat
  spg_interlace : Bool
  scale_x : Bool
  scale_y : Nat
  scaler_interlace : Bool

/-- pvr_framebuffer_size (pvr.c lines 51-72). -/
def pvr_framebuffer_size (p : VideoRegs) : Nat × Nat :=
  let width := p.fb_r_size_x + 1
  let height := p.fb_r_size_y + 1
  let width :=
    match p.fb_depth with
    | 0 => width * 2
    | 1 => width * 2
    | 2 => width * 4 / 3
    | _ => width
  let height := if p.spg_interlace then height * 2 else height
  (width, height)

/-- pvr_video_size (pvr.c lines 394-420): a pure query deriving the logical
video resolution from the framebuffer size and the scaler registers. -/
def pvr_video_size (p : VideoRegs) : Nat × Nat :=
  let wh := pvr_framebuffer_size p
  let width := if p.scale_x then wh.1 * 2 else wh.1
  let height := (wh.2 * p.scale_y) >>> 10
  let height := if p.scaler_interlace then height / 2 else height
  (width, height)

/-- Per-pixel conversion of fb_depth 0, a 16-bit 0555 pixel, to the three
output bytes (pvr.c lines 137-139). -/
def pvr_fb_pixel_0555 (rgb : Nat) : Nat × Nat × Nat :=
  ((rgb &&& 0b0111110000000000) >>> 7,
   (rgb &&& 0b0000001111100000) >>> 2,
   (rgb &&& 0b0000000000011111) <<< 3)

/-- Per-pixel conversion of fb_depth 1, a 16-bit 565 pixel, to the three
output bytes (pvr.c lines 153-155). -/
def pvr_fb_pixel_565 (rgb : Nat) : Nat × Nat × Nat :=
  ((rgb &&& 0b1111100000000000) >>> 8,
   (rgb &&& 0b0000011111100000) >>> 3,
   (rgb &&& 0b0000000000011111) <<< 3)

/-- Per-pixel conversion of fb_depth 2, three source bytes in
little-channel-first order, to RGB output bytes (pvr.c lines 168-170). -/
def pvr_fb_pixel_888 (b0 b1 b2 : Nat) : Nat × Nat × Nat := (b2, b1, b0)

/-- Per-pixel conversion of fb_depth 3, four source bytes with the fourth
(unused K byte) dropped (pvr.c lines 183-185). -/
def pvr_fb_pixel_0888 (b0 b1 b2 b3 : Nat) : Nat × Nat × Nat :=
  let _ := b3
  (b2, b1, b0)

/-- TA_LIST_INIT write handler (pvr.c lines 459-468): returns the device
state (untouched by the handler body) and the number of `ta_list_init`
pipeline calls made. -/
def TA_LIST_INIT_write {α : Type} (pvr : α) (value : Nat) : α × Nat :=
  if value &&& 0x80000000 = 0 then (pvr, 0) else (pvr, 1)

/-- pvr_reg_write (pvr.c lines 364-381) over a register file `reg` and the
callback table `cb` (the table contents are registered elsewhere, so it is a
parameter). `ID` is the word offset of the read-only identifier register,
which the headers outside this module fix. Returns the new register file,
the handler-produced file when a handler is registered, and whether a write
handler was invoked. The source fetches the handler pointer before the ID
check but only invokes it after, so checking ID first is equivalent. -/
def pvr_reg_write (cb : Nat → Option ((Nat → Nat) → Nat → (Nat → Nat)))
    (ID : Nat) (reg : Nat → Nat) (addr data mask : Nat) :
    (Nat → Nat) × Bool :=
  let _ := mask
  let offset := addr >>> 2
  if offset = ID then (reg, false)
  else
    match cb offset with
    | some write => (write reg data, true)
    | none => (Function.update reg offset data, false)

/-- Concrete SPG registers with `vbstart = 10`, `vbend = 20` (the
non-wraparound example of the spec). -/
def spg_regs_a : SpgRegs :=
  { vcount := 524, hblank_int_mode := 0, line_comp_val := 0,
    vblank_in_line_number := 520, vblank_out_line_number := 40,
    vbstart := 10, vbend := 20, interlace := false }

/-- Concrete SPG registers with `vbstart = 400`, `vbend = 5` (the
wraparound example of the spec). -/
def spg_regs_b : SpgRegs :=
  { vcount := 524, hblank_int_mode := 0, line_comp_val := 0,
    vblank_in_line_number := 520, vblank_out_line_number := 40,
    vbstart := 400, vbend := 5, interlace := false }

/-- Concrete SPG state used by witnesses. -/
def spg_state_0 : SpgState :=
  { current_line := 0, vsync := false, fieldnum := false }

/-- Concrete video registers: 640×480, depth 1, no interlace, unity scale. -/
def video_regs_unity : VideoRegs :=
  { fb_r_size_x := 319, fb_r_size_y := 479, fb_depth := 1,
    spg_interlace := false, scale_x := false, scale_y := 0x400,
    scaler_interlace := false }

/-- Concrete video registers: 640×480, depth 1, `scale_y = 0x800`. -/
def video_regs_0x800 : VideoRegs :=
  { fb_r_size_x := 319, fb_r_size_y := 479, fb_depth := 1,
    spg_interlace := false, scale_x := false, scale_y := 0x800,
    scaler_interlace := false }

/-- Concrete video registers: 640×480, depth 1, `scale_x` set. -/
def video_regs_sx : VideoRegs :=
  { fb_r_size_x := 319, fb_r_size_y := 479, fb_depth := 1,
    spg_interlace := false, scale_x := true, scale_y := 0x400,
    scaler_interlace := false }

/-- Zero-filled vram used by witnesses and counterexamples. -/
def vram0 : Nat → Nat := fun _ => 0

/-- Empty callback table used by the register-write witness. -/
def cb_none : Nat → Option ((Nat → Nat) → Nat → (Nat → Nat)) := fun _ => none

/-- Zero-filled register file used by the register-write witness. -/
def reg0 : Nat → Nat := fun _ => 0

/-! ### Helper lemmas -/

/-- Any constant mask made of `k` consecutive one bits starting at bit `s`
extracts the corresponding field: `x &&& ((2^k - 1) <<< s)` keeps exactly
bits `s..s+k-1` of `x` in place. -/
theorem and_mask_shift (x k s : Nat) :
    x &&& ((2 ^ k - 1) <<< s) = (x >>> s % 2 ^ k) <<< s := by
  apply Nat.eq_of_testBit_eq
  intro j
  simp only [Nat.testBit_and, Nat.testBit_shiftLeft, Nat.testBit_mod_two_pow,
    Nat.testBit_shiftRight, Nat.testBit_two_pow_sub_one]
  by_cases hj : s ≤ j
  · have h1 : s + (j - s) = j := by omega
    simp [hj, h1, Bool.and_comm, Bool.and_assoc, Bool.and_left_comm]
  · simp [hj]

/-- Disjoint bit ranges combine by addition: if `c` is a multiple of `2^i`
and `b < 2^i` then `c ||| b = c + b`. -/
theorem or_of_dvd {i c b : Nat} (hdvd : 2 ^ i ∣ c) (hb : b < 2 ^ i) :
    c ||| b = c + b := by
  obtain ⟨q, rfl⟩ := hdvd
  rw [← Nat.mul_add_lt_is_or hb q]

/-- Arithmetic characterization of `VRAM64`: the word-aligned part of the
intra-bank offset is shifted up one bit, the bank bit lands at bit 2, and
the two low byte bits pass through. -/
theorem vram64_arith (a : Nat) :
    VRAM64 a = a % 0x400000 / 4 * 8 + a / 0x400000 % 2 * 4 + a % 4 := by
  have hm1 : (0x3FFFFF : Nat) = 2 ^ 22 - 1 := by norm_num
  have hoff : a &&& 0x3FFFFF = a % 2 ^ 22 := by
    rw [hm1, Nat.and_pow_two_sub_one_eq_mod]
  have hm2 : (0xFFFFFFFC : Nat) = (2 ^ 30 - 1) <<< 2 := by
    rw [Nat.shiftLeft_eq]; norm_num
  have hword : a % 2 ^ 22 &&& 0xFFFFFFFC = a % 2 ^ 22 / 4 * 4 := by
    rw [hm2, and_mask_shift, Nat.shiftLeft_eq, Nat.shiftRight_eq_div_pow]
    have hb : a % 2 ^ 22 / 2 ^ 2 < 2 ^ 30 :=
      lt_of_le_of_lt (Nat.div_le_self _ _)
        (lt_of_lt_of_le (Nat.mod_lt a (by norm_num)) (by norm_num))
    rw [Nat.mod_eq_of_lt hb]
    norm_num
  have hm3 : (0x400000 : Nat) = (2 ^ 1 - 1) <<< 22 := by
    rw [Nat.shiftLeft_eq]; norm_num
  have hbank : (a &&& 0x400000) >>> 20 = a / 2 ^ 22 % 2 * 4 := by
    rw [hm3, and_mask_shift, Nat.shiftLeft_eq, Nat.shiftRight_eq_div_pow,
      Nat.shiftRight_eq_div_pow,
      Nat.mul_div_assoc _ (by norm_num : (2 : Nat) ^ 20 ∣ 2 ^ 22)]
    norm_num
  have hm4 : (0x3 : Nat) = 2 ^ 2 - 1 := by norm_num
  have hlow : a % 2 ^ 22 &&& 0x3 = a % 4 := by
    rw [hm4, Nat.and_pow_two_sub_one_eq_mod]
    exact Nat.mod_mod_of_dvd a (by norm_num)
  show ((a &&& 0x3FFFFF &&& 0xFFFFFFFC) <<< 1) ||| ((a &&& 0x400000) >>> 20) |||
      (a &&& 0x3FFFFF &&& 0x3) = _
  rw [hoff, hword, hbank, hlow, Nat.shiftLeft_eq]
  have hor1 : a % 2 ^ 22 / 4 * 4 * 2 ^ 1 ||| a / 2 ^ 22 % 2 * 4 =
      a % 2 ^ 22 / 4 * 4 * 2 ^ 1 + a / 2 ^ 22 % 2 * 4 := by
    apply or_of_dvd (i := 3)
    · exact ⟨a % 2 ^ 22 / 4, by ring⟩
    · exact lt_of_le_of_lt
        (Nat.mul_le_mul_right 4 (Nat.le_of_lt_succ (Nat.mod_lt _ (by norm_num))))
        (by norm_num)
  have hor2 : a % 2 ^ 22 / 4 * 4 * 2 ^ 1 + a / 2 ^ 22 % 2 * 4 ||| a % 4 =
      a % 2 ^ 22 / 4 * 4 * 2 ^ 1 + a / 2 ^ 22 % 2 * 4 + a % 4 := by
    apply or_of_dvd (i := 2)
    · exact ⟨a % 2 ^ 22 / 4 * 2 + a / 2 ^ 22 % 2, by ring⟩
    · exact lt_of_lt_of_le (Nat.mod_lt a (by norm_num)) (by norm_num)
  rw [hor1, hor2, show (0x400000 : Nat) = 2 ^ 22 from by norm_num,
    Nat.mul_assoc]
  norm_num

/-- Reading back a just-stored 32-bit word recovers it modulo `2^32`. -/
theorem read32_write32_self (m : Nat → Nat) (i d : Nat) :
    read32 (write32 m i d) i = d % 2 ^ 32 := by
  have h0 : write32 m i d i = d % 256 := by
    simp [write32]
  have h1 : write32 m i d (i + 1) = d / 256 % 256 := by
    simp [write32]
  have h2 : write32 m i d (i + 2) = d / 65536 % 256 := by
    simp [write32]
  have h3 : write32 m i d (i + 3) = d / 16777216 % 256 := by
    simp [write32]
  simp only [read32, h0, h1, h2, h3, Nat.mod_mod]
  have e3 : d % 65536 = d % 256 + 256 * (d / 256 % 256) := by
    have h := Nat.mod_mul (a := 256) (b := 256) (x := d)
    norm_num at h
    exact h
  have e2 : d % 16777216 = d % 65536 + 65536 * (d / 65536 % 256) := by
    have h := Nat.mod_mul (a := 65536) (b := 256) (x := d)
    norm_num at h
    exact h
  have e1 : d % 4294967296 = d % 16777216 + 16777216 * (d / 16777216 % 256) := by
    have h := Nat.mod_mul (a := 16777216) (b := 256) (x := d)
    norm_num at h
    exact h
  rw [show (2 : Nat) ^ 32 = 4294967296 from by norm_num, e1, e2, e3,
    Nat.mul_comm 256 (d / 256 % 256), Nat.mul_comm 65536 (d / 65536 % 256),
    Nat.mul_comm 16777216 (d / 16777216 % 256), Nat.add_assoc, Nat.add_assoc]

/-- A 32-bit store at a disjoint index range leaves a 32-bit load unchanged. -/
theorem read32_write32_ne (m : Nat → Nat) {i j : Nat} (d : Nat)
    (h : i + 3 < j ∨ j + 3 < i) :
    read32 (write32 m j d) i = read32 m i := by
  have hx : ∀ x, i ≤ x → x ≤ i + 3 → write32 m j d x = m x := by
    intro x hx1 hx2
    simp only [write32]
    rw [if_neg (by omega), if_neg (by omega), if_neg (by omega),
      if_neg (by omega)]
  simp only [read32, hx i (by omega) (by omega), hx (i + 1) (by omega) (by omega),
    hx (i + 2) (by omega) (by omega), hx (i + 3) (by omega) (by omega)]

/-- Decomposition of the low 23 bits of an address into the bank bit, the
word-aligned intra-bank offset and the byte-within-word bits. -/
theorem vram64_decomp (X : Nat) : X % 0x800000 =
    X / 0x400000 % 2 * 0x400000 + X % 0x400000 / 4 * 4 + X % 4 := by
  have h1 : X % 8388608 = X % 4194304 + 4194304 * (X / 4194304 % 2) := by
    have h := Nat.mod_mul (a := 4194304) (b := 2) (x := X)
    norm_num at h
    exact h
  have hm : X % 4194304 % 4 = X % 4 :=
    Nat.mod_mod_of_dvd X (by norm_num)
  have h2 : X % 4194304 = 4 * (X % 4194304 / 4) + X % 4 := by
    conv_lhs => rw [← Nat.div_add_mod (X % 4194304) 4]
    rw [hm]
  conv_lhs => rw [h1, h2]
  rw [Nat.mul_comm 4 (X % 4194304 / 4), Nat.mul_comm 4194304 (X / 4194304 % 2),
    Nat.add_comm (X % 4194304 / 4 * 4 + X % 4) (X / 4194304 % 2 * 4194304),
    ← Nat.add_assoc]

/-- Arithmetic core of the stride-disjointness argument: two distinct
bank/word decompositions that agree on the byte bits translate to word
regions at least four bytes apart. -/
theorem disj_aux {fA gA lA fB gB lB : Nat} (hgA : gA < 2) (hgB : gB < 2)
    (hl : lB = lA)
    (hne : gB * 0x400000 + fB * 4 + lB ≠ gA * 0x400000 + fA * 4 + lA) :
    fB * 8 + gB * 4 + lB + 3 < fA * 8 + gA * 4 + lA ∨
      fA * 8 + gA * 4 + lA + 3 < fB * 8 + gB * 4 + lB := by
  rw [hl] at hne ⊢
  rcases Nat.lt_trichotomy (fB * 2 + gB) (fA * 2 + gA) with hlt | heq | hgt
  · left
    have h2 : (fB * 2 + gB) * 4 + 4 ≤ (fA * 2 + gA) * 4 := by
      calc (fB * 2 + gB) * 4 + 4 = (fB * 2 + gB + 1) * 4 := by ring
        _ ≤ (fA * 2 + gA) * 4 := Nat.mul_le_mul_right 4 hlt
    calc fB * 8 + gB * 4 + lA + 3 < fB * 8 + gB * 4 + lA + 4 :=
          Nat.add_lt_add_left (by norm_num) _
      _ = (fB * 2 + gB) * 4 + 4 + lA := by ring
      _ ≤ (fA * 2 + gA) * 4 + lA := Nat.add_le_add_right h2 lA
      _ = fA * 8 + gA * 4 + lA := by ring
  · exfalso
    have eB2 : (fB * 2 + gB) % 2 = gB := by
      rw [Nat.mul_comm fB 2, Nat.mul_add_mod, Nat.mod_eq_of_lt hgB]
    have eA2 : (fA * 2 + gA) % 2 = gA := by
      rw [Nat.mul_comm fA 2, Nat.mul_add_mod, Nat.mod_eq_of_lt hgA]
    have eBd : (fB * 2 + gB) / 2 = fB := by
      rw [Nat.mul_comm fB 2, Nat.mul_add_div (by norm_num),
        Nat.div_eq_of_lt hgB, Nat.add_zero]
    have eAd : (fA * 2 + gA) / 2 = fA := by
      rw [Nat.mul_comm fA 2, Nat.mul_add_div (by norm_num),
        Nat.div_eq_of_lt hgA, Nat.add_zero]
    have hg2 : gB = gA := by rw [← eB2, ← eA2, heq]
    have hf2 : fB = fA := by rw [← eBd, ← eAd, heq]
    exact hne (by rw [hg2, hf2])
  · right
    have h2 : (fA * 2 + gA) * 4 + 4 ≤ (fB * 2 + gB) * 4 := by
      calc (fA * 2 + gA) * 4 + 4 = (fA * 2 + gA + 1) * 4 := by ring
        _ ≤ (fB * 2 + gB) * 4 := Nat.mul_le_mul_right 4 hgt
    calc fA * 8 + gA * 4 + lA + 3 < fA * 8 + gA * 4 + lA + 4 :=
          Nat.add_lt_add_left (by norm_num) _
      _ = (fA * 2 + gA) * 4 + 4 + lA := by ring
      _ ≤ (fB * 2 + gB) * 4 + lA := Nat.add_le_add_right h2 lA
      _ = fB * 8 + gB * 4 + lA := by ring

/-- Adding a nonzero multiple of four below `2^22` to an address moves its
translated word to a disjoint four-byte region. -/
theorem vram64_stride_disjoint (A s : Nat) (hs0 : 0 < s) (hs4 : s % 4 = 0)
    (hslt : s < 2 ^ 22) :
    VRAM64 A + 3 < VRAM64 ((A + s) % 2 ^ 32) ∨
      VRAM64 ((A + s) % 2 ^ 32) + 3 < VRAM64 A := by
  rw [vram64_arith, vram64_arith]
  have h1 := vram64_decomp ((A + s) % 2 ^ 32)
  have h2 := vram64_decomp A
  have hne : ((A + s) % 2 ^ 32) % 0x800000 ≠ A % 0x800000 := by
    rw [Nat.mod_mod_of_dvd _ (by norm_num : (0x800000 : Nat) ∣ 2 ^ 32)]
    intro heq
    have hdvd : (0x800000 : Nat) ∣ s := by
      have h := (Nat.modEq_iff_dvd' (Nat.le_add_right A s)).mp heq.symm
      rwa [Nat.add_sub_cancel_left] at h
    have hle : (0x800000 : Nat) ≤ s := Nat.le_of_dvd hs0 hdvd
    exact absurd hslt (Nat.not_lt.mpr (le_trans (by norm_num) hle))
  have h4 : ((A + s) % 2 ^ 32) % 4 = A % 4 := by
    obtain ⟨k, hk⟩ := Nat.dvd_of_mod_eq_zero hs4
    rw [Nat.mod_mod_of_dvd _ (by norm_num : (4 : Nat) ∣ 2 ^ 32), hk,
      Nat.add_mul_mod_self_left]
  rw [h1, h2] at hne
  have hgA : A / 0x400000 % 2 < 2 := Nat.mod_lt _ (by norm_num)
  have hgB : ((A + s) % 2 ^ 32) / 0x400000 % 2 < 2 := Nat.mod_lt _ (by norm_num)
  exact (disj_aux hgA hgB h4 hne).symm

/-- The three digit fields of a translated address `f * 8 + g * 4 + l`
(word offset, bank bit, byte bits) can be read back by division and
remainder. -/
theorem vram64_comps (f g l : Nat) (hg : g < 2) (hl : l < 4) :
    (f * 8 + g * 4 + l) / 8 = f ∧ (f * 8 + g * 4 + l) / 4 % 2 = g ∧
      (f * 8 + g * 4 + l) % 4 = l := by
  have e8 : f * 8 + g * 4 + l = 8 * f + (g * 4 + l) := by ring
  have e4 : f * 8 + g * 4 + l = 4 * (f * 2 + g) + l := by ring
  have hb8 : g * 4 + l < 8 :=
    lt_of_le_of_lt (Nat.add_le_add
      (Nat.mul_le_mul_right 4 (Nat.le_of_lt_succ hg)) (Nat.le_of_lt_succ hl))
      (by norm_num)
  refine ⟨?_, ?_, ?_⟩
  · rw [e8, Nat.mul_add_div (by norm_num), Nat.div_eq_of_lt hb8, Nat.add_zero]
  · rw [e4, Nat.mul_add_div (by norm_num), Nat.div_eq_of_lt hl, Nat.add_zero,
      Nat.mul_comm f 2, Nat.mul_add_mod, Nat.mod_eq_of_lt hg]
  · rw [e4, Nat.mul_add_mod, Nat.mod_eq_of_lt hl]

/-- Every address below 8MB is recovered from its bank bit, word offset and
byte bits. -/
theorem vram64_key (c : Nat) (hc : c < 0x800000) :
    c = c / 0x400000 % 2 * 0x400000 + c % 0x400000 / 4 * 4 + c % 4 := by
  conv_lhs => rw [← Nat.mod_eq_of_lt hc]
  exact vram64_decomp c

/-- The scanline counter after `k` ticks, starting from a valid line. -/
theorem spg_iter_line (r : SpgRegs) (s : SpgState)
    (hs : s.current_line < r.vcount + 1) :
    ∀ k, (spg_iter r s k).current_line = (s.current_line + k) % (r.vcount + 1)
  | 0 => by
      show s.current_line = s.current_line % (r.vcount + 1)
      rw [Nat.mod_eq_of_lt hs]
  | k + 1 => by
      have ih := spg_iter_line r s hs k
      show ((spg_iter r s k).current_line + 1) % (r.vcount + 1) = _
      rw [ih, Nat.mod_add_mod, Nat.add_assoc]

/-- After every tick the stored vsync flag equals the vsync predicate of the
new current line (the tick recomputes it from scratch). -/
theorem spg_step_vsync (r : SpgRegs) (s : SpgState) :
    (pvr_next_scanline r s).1.vsync =
      spg_vsync r ((pvr_next_scanline r s).1.current_line) := rfl

/-! ### Claim theorems -/

/-- C1: the VRAM address translator is injective on linear addresses in
`[0, 8MB)`; `vram64_inverse` recovers every such address from its translated
value (bank bit and all offset bits, including the low two byte-within-word
bits, survive the round-trip). -/
theorem vram64_round_trip (a : Nat) (ha : a < 0x800000) :
    vram64_inverse (VRAM64 a) = a ∧
    ∀ b : Nat, b < 0x800000 → VRAM64 a = VRAM64 b → a = b := by
  have hga : a / 0x400000 % 2 < 2 := Nat.mod_lt _ (by norm_num)
  have hla : a % 4 < 4 := Nat.mod_lt a (by norm_num)
  have ca := vram64_comps (a % 0x400000 / 4) (a / 0x400000 % 2) (a % 4) hga hla
  constructor
  · rw [vram64_arith, vram64_inverse, ca.1, ca.2.1, ca.2.2]
    conv_rhs => rw [vram64_key a ha]
    rw [Nat.add_comm (a % 0x400000 / 4 * 4) (a / 0x400000 % 2 * 0x400000)]
  · intro b hb h
    rw [vram64_arith a, vram64_arith b] at h
    have hgb : b / 0x400000 % 2 < 2 := Nat.mod_lt _ (by norm_num)
    have hlb : b % 4 < 4 := Nat.mod_lt b (by norm_num)
    have cb := vram64_comps (b % 0x400000 / 4) (b / 0x400000 % 2) (b % 4) hgb hlb
    have hf : a % 0x400000 / 4 = b % 0x400000 / 4 := by
      rw [← ca.1, ← cb.1, h]
    have hgeq : a / 0x400000 % 2 = b / 0x400000 % 2 := by
      rw [← ca.2.1, ← cb.2.1, h]
    have hleq : a % 4 = b % 4 := by
      rw [← ca.2.2, ← cb.2.2, h]
    conv_lhs => rw [vram64_key a ha]
    conv_rhs => rw [vram64_key b hb]
    rw [hf, hgeq, hleq]

/-- Witness for C1 at the concrete linear address `0x123457`. -/
theorem vram64_round_trip_witness :
    (0x123457 : Nat) < 0x800000 ∧
      vram64_inverse (VRAM64 0x123457) = 0x123457 :=
  ⟨by decide, (vram64_round_trip 0x123457 (by decide)).1⟩

/-- C10: for every input address the translator masks away all bits above
bit 22, so the translated word index is strictly below `0x800000` and the
linear-path vram read (which indexes the 8MB buffer at the translated word)
stays in range there. -/
theorem vram64_translated_word_in_range (a : Nat) :
    VRAM64 a < 0x800000 ∧
      ∀ vram mask, pvr_vram32_read vram a mask =
        read32 vram (VRAM64 a) &&& mask := by
  refine ⟨?_, fun vram mask => rfl⟩
  rw [vram64_arith]
  have hf : a % 0x400000 / 4 ≤ 1048575 := by
    have hm : a % 0x400000 ≤ 4194303 :=
      Nat.le_of_lt_succ (Nat.mod_lt a (by norm_num))
    calc a % 0x400000 / 4 ≤ 4194303 / 4 := Nat.div_le_div_right hm
      _ = 1048575 := by norm_num
  have hg : a / 0x400000 % 2 ≤ 1 := Nat.le_of_lt_succ (Nat.mod_lt _ (by norm_num))
  have hl : a % 4 ≤ 3 := Nat.le_of_lt_succ (Nat.mod_lt a (by norm_num))
  exact lt_of_le_of_lt
    (Nat.add_le_add (Nat.add_le_add (Nat.mul_le_mul_right 8 hf)
      (Nat.mul_le_mul_right 4 hg)) hl) (by norm_num)

/-- C2: after every scanline tick the vsync flag equals the configured
predicate of the new current line: for `vbstart < vbend` it holds iff the
line is in `[vbstart, vbend)`; otherwise (wraparound) iff the line is
`>= vbstart` or `< vbend`. Concretely, with `vbstart = 10, vbend = 20` the
predicate holds exactly for lines 10..19, and with `vbstart = 400,
vbend = 5` exactly for lines `>= 400` or `< 5`. -/
theorem vsync_flag_after_tick :
    (∀ (r : SpgRegs) (s : SpgState),
      (pvr_next_scanline r s).1.vsync = true ↔
        (if r.vbstart < r.vbend
         then r.vbstart ≤ (pvr_next_scanline r s).1.current_line ∧
              (pvr_next_scanline r s).1.current_line < r.vbend
         else r.vbstart ≤ (pvr_next_scanline r s).1.current_line ∨
              (pvr_next_scanline r s).1.current_line < r.vbend)) ∧
    (∀ l : Nat, spg_vsync spg_regs_a l = true ↔ (10 ≤ l ∧ l < 20)) ∧
    (∀ l : Nat, spg_vsync spg_regs_b l = true ↔ (400 ≤ l ∨ l < 5)) := by
  refine ⟨fun r s => ?_, fun l => ?_, fun l => ?_⟩
  · rw [spg_step_vsync]
    unfold spg_vsync
    split <;> simp
  · simp [spg_vsync, spg_regs_a]
  · simp [spg_vsync, spg_regs_b]

/-- C3: the scanline counter advances by one per tick modulo
`vcount + 1`; starting from any line below `vcount + 1` it returns to that
line after exactly `vcount + 1` ticks and never reaches a value
`>= vcount + 1`. -/
theorem scanline_counter_wraps (r : SpgRegs) (s : SpgState)
    (hs : s.current_line < r.vcount + 1) :
    (pvr_next_scanline r s).1.current_line =
      (s.current_line + 1) % (r.vcount + 1) ∧
    (spg_iter r s (r.vcount + 1)).current_line = s.current_line ∧
    ∀ k, (spg_iter r s k).current_line < r.vcount + 1 := by
  refine ⟨rfl, ?_, fun k => ?_⟩
  · rw [spg_iter_line r s hs, Nat.add_mod_right, Nat.mod_eq_of_lt hs]
  · rw [spg_iter_line r s hs k]
    exact Nat.mod_lt _ (by omega)

/-- Witness for C3 with the concrete registers `spg_regs_a`
(`vcount = 524`) starting at line 0. -/
theorem scanline_counter_wraps_witness :
    spg_state_0.current_line < spg_regs_a.vcount + 1 ∧
    (spg_iter spg_regs_a spg_state_0 (spg_regs_a.vcount + 1)).current_line =
      spg_state_0.current_line ∧
    (spg_iter spg_regs_a spg_state_0 37).current_line < spg_regs_a.vcount + 1 :=
  ⟨by decide,
   (scanline_counter_wraps spg_regs_a spg_state_0 (by decide)).2.1,
   (scanline_counter_wraps spg_regs_a spg_state_0 (by decide)).2.2 37⟩

/-- C5 (amended): with unity vertical scale (`scale_y = 0x400`), the
flicker-reduction interlace mode off and horizontal supersampling off, the
video size query returns exactly the raw framebuffer size; with
`scale_y = 0x800` it returns double (not half) the framebuffer height; with
the `scale_x` flag set it returns double the framebuffer width. The query
is a pure function of the registers. -/
theorem video_size_query (p : VideoRegs) :
    (p.scale_y = 0x400 → p.scaler_interlace = false → p.scale_x = false →
      pvr_video_size p = pvr_framebuffer_size p) ∧
    (p.scale_y = 0x800 → p.scaler_interlace = false →
      (pvr_video_size p).2 = 2 * (pvr_framebuffer_size p).2) ∧
    (p.scale_x = true →
      (pvr_video_size p).1 = 2 * (pvr_framebuffer_size p).1) := by
  refine ⟨fun h1 h2 h3 => ?_, fun h1 h2 => ?_, fun h1 => ?_⟩
  · simp only [pvr_video_size, h1, h2, h3, if_false, Bool.false_eq_true,
      Nat.shiftRight_eq_div_pow]
    have he : (pvr_framebuffer_size p).2 * 0x400 / 2 ^ 10 =
        (pvr_framebuffer_size p).2 := by
      rw [show (2 : Nat) ^ 10 = 0x400 from by norm_num]
      exact Nat.mul_div_cancel _ (by norm_num)
    rw [he]
  · simp only [pvr_video_size, h1, h2, if_false, Bool.false_eq_true,
      Nat.shiftRight_eq_div_pow]
    rw [show (2 : Nat) ^ 10 = 0x400 from by norm_num,
      show (0x800 : Nat) = 2 * 0x400 from by norm_num, ← Nat.mul_assoc,
      Nat.mul_div_cancel _ (by norm_num), Nat.mul_comm]
  · simp only [pvr_video_size, h1, if_true]
    rw [Nat.mul_comm]

/-- Witness for C5 at the three concrete register settings. -/
theorem video_size_query_witness :
    pvr_video_size video_regs_unity = pvr_framebuffer_size video_regs_unity ∧
    (pvr_video_size video_regs_0x800).2 =
      2 * (pvr_framebuffer_size video_regs_0x800).2 ∧
    (pvr_video_size video_regs_sx).1 =
      2 * (pvr_framebuffer_size video_regs_sx).1 :=
  ⟨(video_size_query video_regs_unity).1 rfl rfl rfl,
   (video_size_query video_regs_0x800).2.1 rfl rfl,
   (video_size_query video_regs_sx).2.2 rfl⟩

/-- Counterexample to C5 as stated: with `scale_y = 0x800` on a 640×480
framebuffer the query returns height 960, which is double — not half — the
framebuffer height of 480. -/
theorem video_size_scale_y_0x800_counterexample :
    pvr_framebuffer_size video_regs_0x800 = (640, 480) ∧
    pvr_video_size video_regs_0x800 = (640, 960) ∧
    (960 : Nat) ≠ 480 / 2 := by
  refine ⟨by decide, by decide, by decide⟩

/-- C6: the per-pixel conversions follow the stated bit-extraction and
channel-ordering rules: a 5-6-5 pixel `0xF800` yields output bytes
`(0xF8, 0x00, 0x00)`; the 5-5-5 and 5-6-5 formats left-shift each channel
into 8 bits with zero-filled low bits; the 24-bit and 32-bit truecolor
formats reorder the little-channel-first source bytes to RGB order,
dropping the unused fourth byte of the 32-bit format. -/
theorem framebuffer_pixel_conversion :
    pvr_fb_pixel_565 0xF800 = (0xF8, 0, 0) ∧
    (∀ r g b : Nat, r < 32 → g < 64 → b < 32 →
      pvr_fb_pixel_565 (r * 2048 + g * 32 + b) = (r <<< 3, g <<< 2, b <<< 3)) ∧
    (∀ r g b : Nat, r < 32 → g < 32 → b < 32 →
      pvr_fb_pixel_0555 (r * 1024 + g * 32 + b) = (r <<< 3, g <<< 3, b <<< 3)) ∧
    (∀ b0 b1 b2 : Nat, pvr_fb_pixel_888 b0 b1 b2 = (b2, b1, b0)) ∧
    (∀ b0 b1 b2 b3 : Nat, pvr_fb_pixel_0888 b0 b1 b2 b3 = (b2, b1, b0)) := by
  have hm565r : (0b1111100000000000 : Nat) = (2 ^ 5 - 1) <<< 11 := by
    rw [Nat.shiftLeft_eq]; norm_num
  have hm565g : (0b0000011111100000 : Nat) = (2 ^ 6 - 1) <<< 5 := by
    rw [Nat.shiftLeft_eq]; norm_num
  have hm555r : (0b0111110000000000 : Nat) = (2 ^ 5 - 1) <<< 10 := by
    rw [Nat.shiftLeft_eq]; norm_num
  have hm555g : (0b0000001111100000 : Nat) = (2 ^ 5 - 1) <<< 5 := by
    rw [Nat.shiftLeft_eq]; norm_num
  have hmb : (0b0000000000011111 : Nat) = (2 ^ 5 - 1) <<< 0 := by
    rw [Nat.shiftLeft_eq]; norm_num
  refine ⟨by decide, fun r g b hr hg hb => ?_, fun r g b hr hg hb => ?_,
    fun b0 b1 b2 => rfl, fun b0 b1 b2 b3 => rfl⟩
  · unfold pvr_fb_pixel_565
    rw [hm565r, hm565g, hmb, and_mask_shift, and_mask_shift, and_mask_shift]
    simp only [Nat.shiftLeft_eq, Nat.shiftRight_eq_div_pow, Prod.mk.injEq]
    rw [show (2 : Nat) ^ 11 = 2048 from by norm_num,
      show (2 : Nat) ^ 8 = 256 from by norm_num,
      show (2 : Nat) ^ 6 = 64 from by norm_num,
      show (2 : Nat) ^ 5 = 32 from by norm_num,
      show (2 : Nat) ^ 3 = 8 from by norm_num,
      show (2 : Nat) ^ 2 = 4 from by norm_num,
      show (2 : Nat) ^ 0 = 1 from by norm_num]
    have e1 : r * 2048 + g * 32 + b = 2048 * r + (g * 32 + b) := by ring
    have e2 : r * 2048 + g * 32 + b = 32 * (r * 64 + g) + b := by ring
    have hrest : g * 32 + b < 2048 :=
      lt_of_le_of_lt (Nat.add_le_add
        (Nat.mul_le_mul_right 32 (Nat.le_of_lt_succ hg))
        (Nat.le_of_lt_succ hb)) (by norm_num)
    refine ⟨?_, ?_, ?_⟩
    · rw [e1, Nat.mul_add_div (by norm_num), Nat.div_eq_of_lt hrest,
        Nat.add_zero, Nat.mod_eq_of_lt hr,
        Nat.mul_div_assoc r (by norm_num : (256 : Nat) ∣ 2048)]
    · rw [e2, Nat.mul_add_div (by norm_num), Nat.div_eq_of_lt hb,
        Nat.add_zero, Nat.mul_comm r 64, Nat.mul_add_mod,
        Nat.mod_eq_of_lt hg, Nat.mul_div_assoc g (by norm_num : (8 : Nat) ∣ 32)]
    · rw [Nat.div_one, Nat.mul_one, e2, Nat.mul_add_mod, Nat.mod_eq_of_lt hb]
  · unfold pvr_fb_pixel_0555
    rw [hm555r, hm555g, hmb, and_mask_shift, and_mask_shift, and_mask_shift]
    simp only [Nat.shiftLeft_eq, Nat.shiftRight_eq_div_pow, Prod.mk.injEq]
    rw [show (2 : Nat) ^ 10 = 1024 from by norm_num,
      show (2 : Nat) ^ 7 = 128 from by norm_num,
      show (2 : Nat) ^ 5 = 32 from by norm_num,
      show (2 : Nat) ^ 3 = 8 from by norm_num,
      show (2 : Nat) ^ 2 = 4 from by norm_num,
      show (2 : Nat) ^ 0 = 1 from by norm_num]
    have e1 : r * 1024 + g * 32 + b = 1024 * r + (g * 32 + b) := by ring
    have e2 : r * 1024 + g * 32 + b = 32 * (r * 32 + g) + b := by ring
    have hrest : g * 32 + b < 1024 :=
      lt_of_le_of_lt (Nat.add_le_add
        (Nat.mul_le_mul_right 32 (Nat.le_of_lt_succ hg))
        (Nat.le_of_lt_succ hb)) (by norm_num)
    refine ⟨?_, ?_, ?_⟩
    · rw [e1, Nat.mul_add_div (by norm_num), Nat.div_eq_of_lt hrest,
        Nat.add_zero, Nat.mod_eq_of_lt hr,
        Nat.mul_div_assoc r (by norm_num : (128 : Nat) ∣ 1024)]
    · rw [e2, Nat.mul_add_div (by norm_num), Nat.div_eq_of_lt hb,
        Nat.add_zero, Nat.mul_comm r 32, Nat.mul_add_mod,
        Nat.mod_eq_of_lt hg, Nat.mul_div_assoc g (by norm_num : (4 : Nat) ∣ 32)]
    · rw [Nat.div_one, Nat.mul_one, e2, Nat.mul_add_mod, Nat.mod_eq_of_lt hb]

/-- Witness for C6 at concrete channel values `r = 31, g = 7, b = 1`. -/
theorem framebuffer_pixel_conversion_witness :
    (31 : Nat) < 32 ∧
    pvr_fb_pixel_565 (31 * 2048 + 7 * 32 + 1) = (31 <<< 3, 7 <<< 2, 1 <<< 3) ∧
    pvr_fb_pixel_0555 (31 * 1024 + 7 * 32 + 1) = (31 <<< 3, 7 <<< 3, 1 <<< 3) :=
  ⟨by decide,
   framebuffer_pixel_conversion.2.1 31 7 1 (by decide) (by decide) (by decide),
   framebuffer_pixel_conversion.2.2.1 31 7 1 (by decide) (by decide) (by decide)⟩

/-- C7: the scene-list-init handler leaves the device state unchanged and
makes no pipeline call when bit 31 of the written value is clear, and makes
exactly one `ta_list_init` call when bit 31 is set. -/
theorem ta_list_init_trigger {α : Type} (pvr : α) (value : Nat) :
    (TA_LIST_INIT_write pvr value).1 = pvr ∧
    (value.testBit 31 = false → (TA_LIST_INIT_write pvr value).2 = 0) ∧
    (value.testBit 31 = true → (TA_LIST_INIT_write pvr value).2 = 1) := by
  have hm : (0x80000000 : Nat) = (2 ^ 1 - 1) <<< 31 := by
    rw [Nat.shiftLeft_eq]; norm_num
  have hbit : value &&& 0x80000000 = 0 ↔ value.testBit 31 = false := by
    rw [hm, and_mask_shift, Nat.testBit_to_div_mod, Nat.shiftLeft_eq,
      Nat.shiftRight_eq_div_pow]
    simp only [decide_eq_false_iff_not]
    omega
  refine ⟨?_, fun h => ?_, fun h => ?_⟩
  · unfold TA_LIST_INIT_write
    split <;> rfl
  · unfold TA_LIST_INIT_write
    rw [if_pos (hbit.mpr h)]
  · unfold TA_LIST_INIT_write
    rw [if_neg (fun hc => by rw [hbit.mp hc] at h; exact Bool.false_ne_true h)]

/-- Witness for C7 at values `0x80000000` (bit 31 set) and `0x7FFFFFFF`
(bit 31 clear). -/
theorem ta_list_init_trigger_witness :
    (TA_LIST_INIT_write (0 : Nat) 0x80000000).2 = 1 ∧
    (TA_LIST_INIT_write (0 : Nat) 0x7FFFFFFF).2 = 0 :=
  ⟨(ta_list_init_trigger (0 : Nat) 0x80000000).2.2 (by decide),
   (ta_list_init_trigger (0 : Nat) 0x7FFFFFFF).2.1 (by decide)⟩

/-- C8: writing to the read-only identifier register offset returns the
register file unchanged (every register keeps its stored value) and invokes
no write handler, for every prior state, value and byte mask. -/
theorem reg_write_id_readonly
    (cb : Nat → Option ((Nat → Nat) → Nat → (Nat → Nat))) (ID : Nat)
    (reg : Nat → Nat) (addr data mask : Nat) (h : addr >>> 2 = ID) :
    pvr_reg_write cb ID reg addr data mask = (reg, false) := by
  simp [pvr_reg_write, h]

/-- Witness for C8 with an empty callback table, `ID = 0` and a write of
`12345` at address 0. -/
theorem reg_write_id_readonly_witness :
    pvr_reg_write cb_none 0 reg0 0 12345 0xFFFFFFFF = (reg0, false) :=
  reg_write_id_readonly cb_none 0 reg0 0 12345 0xFFFFFFFF rfl

/-- C9 (amended): after marking a framebuffer at a non-texture-region
address `A`, the dirty test at `A` reports clean; the dirty test reads the
32-bit word at `VRAM64 A` and reports clean exactly when it equals the
sentinel, so any subsequent write that leaves that word holding a value
other than the sentinel makes the test report dirty (while a write that
stores the sentinel bytes again leaves it clean). -/
theorem framebuffer_dirty_cookie (vram : Nat → Nat) (A : Nat)
    (htex : A &&& 0x01000000 = 0) :
    pvr_test_framebuffer (pvr_mark_framebuffer vram A) A = false ∧
    (∀ v : Nat → Nat, pvr_test_framebuffer v A = false ↔
      read32 v (VRAM64 A) = PVR_FB_COOKIE) ∧
    (∀ (v : Nat → Nat) (d : Nat), d < 2 ^ 32 → d ≠ PVR_FB_COOKIE →
      pvr_test_framebuffer (write32 v (VRAM64 A) d) A = true) := by
  have hpeel : ∀ (M : Nat → Nat) (s : Nat), 0 < s → s % 4 = 0 → s < 2 ^ 22 →
      ∀ d, read32 (write32 M (VRAM64 ((A + s) % 4294967296)) d) (VRAM64 A) =
        read32 M (VRAM64 A) := by
    intro M s h1 h2 h3 d
    exact read32_write32_ne _ _ (vram64_stride_disjoint A s h1 h2 h3)
  refine ⟨?_, fun v => ?_, fun v d hd hne => ?_⟩
  · have hread : read32 (pvr_mark_framebuffer vram A) (VRAM64 A) =
        PVR_FB_COOKIE := by
      simp only [pvr_mark_framebuffer, htex, line_width, line_bpp, line_scale,
        List.foldl]
      simp [hpeel]
      rw [read32_write32_self]
      decide
    simp [pvr_test_framebuffer, hread]
  · simp [pvr_test_framebuffer]
  · have hread : read32 (write32 v (VRAM64 A) d) (VRAM64 A) = d := by
      rw [read32_write32_self, Nat.mod_eq_of_lt hd]
    simp [pvr_test_framebuffer, hread, hne]

/-- Witness for C9 at address 0 over zeroed vram. -/
theorem framebuffer_dirty_cookie_witness :
    (0 : Nat) &&& 0x01000000 = 0 ∧
    pvr_test_framebuffer (pvr_mark_framebuffer vram0 0) 0 = false :=
  ⟨by decide, (framebuffer_dirty_cookie vram0 0 (by decide)).1⟩

/-- One-step equation for the vblank-in notification. -/
theorem spg_step_in_eq (r : SpgRegs) (s : SpgState) :
    (pvr_next_scanline r s).2.vblank_in =
      (!s.vsync && spg_vsync r ((s.current_line + 1) % (r.vcount + 1))) := rfl

/-- One-step equation for the vblank-out notification. -/
theorem spg_step_out_eq (r : SpgRegs) (s : SpgState) :
    (pvr_next_scanline r s).2.vblank_out =
      (s.vsync && !spg_vsync r ((s.current_line + 1) % (r.vcount + 1))) := rfl

/-- One-step equation for the scanline counter. -/
theorem spg_step_line_eq (r : SpgRegs) (s : SpgState) :
    (pvr_next_scanline r s).1.current_line =
      (s.current_line + 1) % (r.vcount + 1) := rfl

/-- The vsync-matches-line invariant propagates through iterated ticks. -/
theorem spg_iter_vsync (r : SpgRegs) (s : SpgState)
    (h0 : s.vsync = spg_vsync r s.current_line) :
    ∀ k, (spg_iter r s k).vsync = spg_vsync r ((spg_iter r s k).current_line)
  | 0 => h0
  | k + 1 => spg_step_vsync r (spg_iter r s k)

/-- In a proper vsync configuration, a rising vsync edge happens exactly
when the new line is `vbstart`. -/
theorem spg_edge_in (r : SpgRegs) (l : Nat)
    (h1 : 0 < r.vbstart) (h2 : r.vbstart < r.vcount + 1)
    (h3 : 0 < r.vbend) (h4 : r.vbend < r.vcount + 1)
    (h5 : r.vbstart ≠ r.vbend) (hl : l < r.vcount + 1) :
    ((!spg_vsync r l) && spg_vsync r ((l + 1) % (r.vcount + 1))) = true ↔
      (l + 1) % (r.vcount + 1) = r.vbstart := by
  by_cases hw : l + 1 = r.vcount + 1
  · rw [hw, Nat.mod_self]
    unfold spg_vsync
    split <;> simp <;> omega
  · rw [Nat.mod_eq_of_lt (by omega)]
    unfold spg_vsync
    split <;> simp <;> omega

/-- In a proper vsync configuration, a falling vsync edge happens exactly
when the new line is `vbend`. -/
theorem spg_edge_out (r : SpgRegs) (l : Nat)
    (h1 : 0 < r.vbstart) (h2 : r.vbstart < r.vcount + 1)
    (h3 : 0 < r.vbend) (h4 : r.vbend < r.vcount + 1)
    (h5 : r.vbstart ≠ r.vbend) (hl : l < r.vcount + 1) :
    (spg_vsync r l && !spg_vsync r ((l + 1) % (r.vcount + 1))) = true ↔
      (l + 1) % (r.vcount + 1) = r.vbend := by
  by_cases hw : l + 1 = r.vcount + 1
  · rw [hw, Nat.mod_self]
    unfold spg_vsync
    split <;> simp <;> omega
  · rw [Nat.mod_eq_of_lt (by omega)]
    unfold spg_vsync
    split <;> simp <;> omega

/-- Exactly one tick index in a full cycle lands the counter on a given
line value. -/
theorem unique_hit (n L v : Nat) (hn : 0 < n) (hv : v < n) :
    ∃! i, i < n ∧ (L + 1 + i) % n = v := by
  obtain ⟨q, r, hq, hr⟩ : ∃ q r, L + 1 = n * q + r ∧ r < n :=
    ⟨(L + 1) / n, (L + 1) % n, by rw [Nat.div_add_mod], Nat.mod_lt _ hn⟩
  have hprop : (if r ≤ v then v - r else v + n - r) < n ∧
      (L + 1 + (if r ≤ v then v - r else v + n - r)) % n = v := by
    constructor
    · split <;> omega
    · split
      · rename_i hrv
        rw [hq, Nat.add_assoc, show r + (v - r) = v from by omega,
          Nat.mul_add_mod, Nat.mod_eq_of_lt hv]
      · rename_i hrv
        rw [hq, Nat.add_assoc, show r + (v + n - r) = n + v from by omega,
          Nat.mul_add_mod, Nat.add_mod_left, Nat.mod_eq_of_lt hv]
  refine ⟨if r ≤ v then v - r else v + n - r, hprop, fun y hy => ?_⟩
  have h1 : (L + 1 + y) % n =
      (L + 1 + (if r ≤ v then v - r else v + n - r)) % n := by
    rw [hy.2, hprop.2]
  have h2 : y % n = (if r ≤ v then v - r else v + n - r) % n :=
    Nat.ModEq.add_left_cancel' (L + 1) h1
  rw [Nat.mod_eq_of_lt hy.1, Nat.mod_eq_of_lt hprop.1] at h2
  exact h2

/-- C4: on every tick the vblank-in notification fires iff the vsync flag
rises, the vblank-out notification fires iff it falls, never both in one
tick; and over one full cycle of `vcount + 1` ticks in a proper vsync
configuration there is exactly one tick firing vblank-in and exactly one
firing vblank-out. -/
theorem vblank_edge_notifications (r : SpgRegs) (s : SpgState) :
    ((pvr_next_scanline r s).2.vblank_in = true ↔
      (s.vsync = false ∧ (pvr_next_scanline r s).1.vsync = true)) ∧
    ((pvr_next_scanline r s).2.vblank_out = true ↔
      (s.vsync = true ∧ (pvr_next_scanline r s).1.vsync = false)) ∧
    ¬((pvr_next_scanline r s).2.vblank_in = true ∧
      (pvr_next_scanline r s).2.vblank_out = true) ∧
    (0 < r.vbstart → r.vbstart < r.vcount + 1 →
     0 < r.vbend → r.vbend < r.vcount + 1 → r.vbstart ≠ r.vbend →
     s.current_line < r.vcount + 1 → s.vsync = spg_vsync r s.current_line →
      (∃! i, i < r.vcount + 1 ∧
        (pvr_next_scanline r (spg_iter r s i)).2.vblank_in = true) ∧
      (∃! i, i < r.vcount + 1 ∧
        (pvr_next_scanline r (spg_iter r s i)).2.vblank_out = true)) := by
  refine ⟨?_, ?_, ?_, fun h1 h2 h3 h4 h5 h6 h7 => ?_⟩
  · rw [spg_step_in_eq, spg_step_vsync, spg_step_line_eq]
    cases s.vsync <;> simp
  · rw [spg_step_out_eq, spg_step_vsync, spg_step_line_eq]
    cases s.vsync <;> simp
  · rw [spg_step_in_eq, spg_step_out_eq]
    cases s.vsync <;> simp
  · have hlt : ∀ i, (spg_iter r s i).current_line < r.vcount + 1 := by
      intro i
      rw [spg_iter_line r s h6 i]
      exact Nat.mod_lt _ (by omega)
    have hvs := spg_iter_vsync r s h7
    have hin : ∀ i, ((pvr_next_scanline r (spg_iter r s i)).2.vblank_in = true)
        ↔ (s.current_line + 1 + i) % (r.vcount + 1) = r.vbstart := by
      intro i
      rw [spg_step_in_eq, hvs i,
        spg_edge_in r _ h1 h2 h3 h4 h5 (hlt i), spg_iter_line r s h6 i,
        Nat.mod_add_mod, show s.current_line + i + 1 = s.current_line + 1 + i
          from by omega]
    have hout : ∀ i,
        ((pvr_next_scanline r (spg_iter r s i)).2.vblank_out = true)
        ↔ (s.current_line + 1 + i) % (r.vcount + 1) = r.vbend := by
      intro i
      rw [spg_step_out_eq, hvs i,
        spg_edge_out r _ h1 h2 h3 h4 h5 (hlt i), spg_iter_line r s h6 i,
        Nat.mod_add_mod, show s.current_line + i + 1 = s.current_line + 1 + i
          from by omega]
    constructor
    · simp only [hin]
      exact unique_hit (r.vcount + 1) s.current_line r.vbstart (by omega) h2
    · simp only [hout]
      exact unique_hit (r.vcount + 1) s.current_line r.vbend (by omega) h4

/-- Witness for C4 with the concrete registers `spg_regs_a` starting from
line 0 with vsync clear. -/
theorem vblank_edge_notifications_witness :
    0 < spg_regs_a.vbstart ∧
    spg_state_0.vsync = spg_vsync spg_regs_a spg_state_0.current_line ∧
    (∃! i, i < spg_regs_a.vcount + 1 ∧
      (pvr_next_scanline spg_regs_a
        (spg_iter spg_regs_a spg_state_0 i)).2.vblank_in = true) :=
  ⟨by decide, by decide,
   ((vblank_edge_notifications spg_regs_a spg_state_0).2.2.2 (by decide)
     (by decide) (by decide) (by decide) (by decide) (by decide)
     (by decide)).1⟩

/-- Counterexample to C9 as stated: a subsequent write to the bytes at
`VRAM64 0` that happens to store the sentinel value `0xdeadbeef` leaves the
dirty test reporting clean, so it is not true that the test reports dirty
after every subsequent write to those bytes. -/
theorem dirty_test_cookie_write_counterexample :
    pvr_test_framebuffer
      (write32 (pvr_mark_framebuffer vram0 0) (VRAM64 0) 0xdeadbeef) 0 =
      false := by
  have h : read32 (write32 (pvr_mark_framebuffer vram0 0) (VRAM64 0)
      0xdeadbeef) (VRAM64 0) = PVR_FB_COOKIE := by
    rw [read32_write32_self, PVR_FB_COOKIE]
    norm_num
  simp [pvr_test_framebuffer, h]

end Pvr
